import Mathlib

/-!
Verification of the cascade puzzle mini-games of the portfolio repository.

Each definition below is a shallow embedding of a function of the source
(TypeScript React pages).  Machine integers are modelled as `ℕ` with explicit
`% 2 ^ 32` where JavaScript 32-bit semantics matter; the JS float in `[0,1)`
returned by the seeded RNG is `h / 2 ^ 32` with `h < 2 ^ 32`, kept as the
natural numerator (and as `ℚ` where a real division is stated).
-/

namespace Porto

/-! ## Seeded RNG (identical in every game page)

`seededRandom(seed)` folds the seed FNV-style into a 32-bit state `h`, and
each call to the returned closure applies a multiply-xorshift mix to `h`,
returning `(h >>> 0) / 4294967296`.  All bitwise ops below act on the
unsigned 32-bit representation, which matches the JS signed/unsigned mix
because `^`, `>>>` and `Math.imul` only depend on (and produce) the same
32-bit pattern. -/

/-- One step of the FNV-style seed fold: `h ^= charCode; h = imul(h, 16777619)`. -/
def fnvStep (h : ℕ) (c : Char) : ℕ :=
  ((h ^^^ c.toNat) * 16777619) % 4294967296

/-- Seed folding of `seededRandom`: starting from `2166136261`, fold every
character of the seed with `fnvStep`. -/
def fnv (seed : String) : ℕ :=
  seed.data.foldl fnvStep 2166136261

/-- The output/mix function of the RNG closure: the body of `next()`.
`h >>> k` on the unsigned representation is `h / 2 ^ k`. -/
def mix (h : ℕ) : ℕ :=
  let h1 := h ^^^ (h / 65536)
  let h2 := (h1 * 2246822507) % 4294967296
  let h3 := h2 ^^^ (h2 / 8192)
  let h4 := (h3 * 3266489909) % 4294967296
  h4 ^^^ (h4 / 65536)

/-- State of the generator after `n` calls to `next()` when seeded with `seed`.
In the source the state after a call equals the integer whose division by
`2 ^ 32` was returned, so the value of call `n` (1-indexed) is `rngState seed n`. -/
def rngState (seed : String) (n : ℕ) : ℕ :=
  mix^[n] (fnv seed)

/-- Value (as the natural numerator of `value / 2 ^ 32`) returned by the
`n`-th call to `next()` after seeding with `seed`, `n` counted from 1. -/
def nthRand (seed : String) (n : ℕ) : ℕ :=
  rngState seed n

theorem mix_lt (h : ℕ) : mix h < 4294967296 := by
  unfold mix
  have h4 : (((h ^^^ (h / 65536)) * 2246822507) % 4294967296 ^^^
      ((h ^^^ (h / 65536)) * 2246822507) % 4294967296 / 8192) * 3266489909 % 4294967296 <
      2 ^ 32 := Nat.mod_lt _ (by norm_num)
  have hs : (((h ^^^ (h / 65536)) * 2246822507) % 4294967296 ^^^
      ((h ^^^ (h / 65536)) * 2246822507) % 4294967296 / 8192) * 3266489909 % 4294967296 / 65536 <
      2 ^ 32 := lt_of_le_of_lt (Nat.div_le_self _ _) h4
  exact Nat.xor_lt_two_pow h4 hs

theorem nthRand_lt (seed : String) (n : ℕ) : nthRand seed (n + 1) < 4294967296 := by
  unfold nthRand rngState
  rw [Function.iterate_succ_apply']
  exact mix_lt _

/-! ## Flipbook: stack-based line reduction (`reduceLine`)

The line holds symbols `0, 1, 2` (labelled A, B, C in the page).  The stack is
kept top-first here; the source pushes at the array end, so the final stack is
reversed to recover the source's left-to-right order. -/

/-- One iteration of the `for (const symbol of line)` loop of `reduceLine`:
pop when the symbol equals the stack top, else push. -/
def reduceStep (stack : List ℕ) (sym : ℕ) : List ℕ :=
  match stack with
  | t :: rest => if t = sym then rest else sym :: t :: rest
  | [] => [sym]

/-- Flipbook `reduceLine`: a single linear pass pushing each symbol and
popping on adjacent equality. -/
def reduceLine (line : List ℕ) : List ℕ :=
  (line.foldl reduceStep []).reverse

theorem reduceStep_chain {stack : List ℕ} (hs : List.Chain' (fun a b => a ≠ b) stack)
    (sym : ℕ) : List.Chain' (fun a b => a ≠ b) (reduceStep stack sym) := by
  unfold reduceStep
  match stack with
  | [] => simp
  | t :: rest =>
    by_cases h : t = sym
    · simpa [h] using hs.tail
    · simp only [if_neg h]
      exact List.Chain'.cons (fun hc => h hc.symm) hs

theorem foldl_reduceStep_chain (l : List ℕ) :
    ∀ stack : List ℕ, List.Chain' (fun a b => a ≠ b) stack →
      List.Chain' (fun a b => a ≠ b) (l.foldl reduceStep stack) := by
  induction l with
  | nil => intro stack hs; simpa using hs
  | cons x xs ih =>
    intro stack hs
    exact ih (reduceStep stack x) (reduceStep_chain hs x)

theorem reduceLine_chain (l : List ℕ) :
    List.Chain' (fun a b => a ≠ b) (reduceLine l) := by
  unfold reduceLine
  rw [List.chain'_reverse]
  exact (foldl_reduceStep_chain l [] (by simp)).imp fun a b h => Ne.symm h

/-- C7: `reduceLine` is the single-pass stack reduction; reducing
`[A, B, B, A]` yields `[]`, reducing `[A, B, C]` leaves it unchanged, and for
every input the output contains no adjacent equal pair. -/
theorem C7_reduceLine_stack_pass :
    reduceLine [0, 1, 1, 0] = [] ∧
    reduceLine [0, 1, 2] = [0, 1, 2] ∧
    ∀ l : List ℕ, List.Chain' (fun a b => a ≠ b) (reduceLine l) :=
  ⟨by decide, by decide, reduceLine_chain⟩

/-! ## Foldline: XOR paper folding

Grids are `List (List Bool)` (lit/unlit cells), matching `boolean[][]`.
`foldHorizontal(grid, k)` folds across the line above row `k`, the smaller
side onto the larger (top folds on a tie); `foldVertical` is the analogue for
columns.  The in-place `newGrid[target][c] = newGrid[target][c] !== grid[r][c]`
loops become folds over `List.range` applying `List.set` with a `zipWith`
XOR of the affected row. -/

/-- Foldline `foldHorizontal`: if the top part (height `k`) is not larger than
the bottom, the base is the bottom portion and rows `0..k-1` are reflected
onto targets `k-1-r`; otherwise the base is the top portion and bottom rows
are reflected up. -/
def foldHorizontal (g : List (List Bool)) (k : ℕ) : List (List Bool) :=
  let H := g.length
  if k ≤ H - k then
    (List.range k).foldl
      (fun acc r =>
        acc.set (k - 1 - r) (List.zipWith Bool.xor (acc.getD (k - 1 - r) []) (g.getD r [])))
      (g.drop k)
  else
    (List.range (H - k)).foldl
      (fun acc b =>
        acc.set (k - 1 - b) (List.zipWith Bool.xor (acc.getD (k - 1 - b) []) (g.getD (k + b) [])))
      (g.take k)

/-- The per-row action of Foldline `foldVertical` on one grid row; `W` is the
width `grid[0].length` read by the source before the branch. -/
def foldRow (row : List Bool) (k W : ℕ) : List Bool :=
  if k ≤ W - k then
    (List.range k).foldl
      (fun acc c =>
        acc.set (k - 1 - c) (Bool.xor (acc.getD (k - 1 - c) false) (row.getD c false)))
      (row.drop k)
  else
    (List.range (W - k)).foldl
      (fun acc b =>
        acc.set (k - 1 - b) (Bool.xor (acc.getD (k - 1 - b) false) (row.getD (k + b) false)))
      (row.take k)

/-- Foldline `foldVertical`: every row is folded across column `k`
independently (the source's row/column loops commute row-wise). -/
def foldVertical (g : List (List Bool)) (k : ℕ) : List (List Bool) :=
  g.map (fun row => foldRow row k (g.getD 0 []).length)

theorem length_foldl_set {α β : Type} (xs : List α) (f : α → ℕ)
    (v : List β → α → β) :
    ∀ acc : List β, ((xs.foldl (fun a x => a.set (f x) (v a x)) acc).length = acc.length) := by
  induction xs with
  | nil => intro acc; rfl
  | cons x xs ih =>
    intro acc
    rw [List.foldl_cons, ih, List.length_set]

theorem foldHorizontal_length (g : List (List Bool)) (k : ℕ)
    (_hk : 0 < k) (hk2 : k < g.length) :
    (foldHorizontal g k).length = max k (g.length - k) := by
  unfold foldHorizontal
  by_cases h : k ≤ g.length - k
  · rw [if_pos h, length_foldl_set, List.length_drop, Nat.max_eq_right h]
  · rw [if_neg h, length_foldl_set, List.length_take,
      Nat.min_eq_left (Nat.le_of_lt hk2), Nat.max_eq_left (Nat.le_of_not_le h)]

theorem foldRow_length (row : List Bool) (k W : ℕ)
    (hk2 : k < W) (hrow : row.length = W) :
    (foldRow row k W).length = max k (W - k) := by
  unfold foldRow
  by_cases h : k ≤ W - k
  · rw [if_pos h, length_foldl_set, List.length_drop, hrow, Nat.max_eq_right h]
  · rw [if_neg h, length_foldl_set, List.length_take, hrow,
      Nat.min_eq_left (Nat.le_of_lt hk2), Nat.max_eq_left (Nat.le_of_not_le h)]

theorem foldVertical_width (g : List (List Bool)) (k W : ℕ)
    (hk2 : k < W) (hrect : ∀ row ∈ g, row.length = W) :
    ∀ row' ∈ foldVertical g k, row'.length = max k (W - k) := by
  intro row' hmem
  unfold foldVertical at hmem
  rcases List.mem_map.1 hmem with ⟨row, hrow, rfl⟩
  have hne : g ≠ [] := by rintro rfl; exact absurd hrow (List.not_mem_nil row)
  have hhead : (g.getD 0 []).length = W := by
    match g, hne with
    | r :: rs, _ => exact hrect r (List.mem_cons_self r rs)
  rw [hhead]
  exact foldRow_length row k W hk2 (hrect row hrow)

/-- The 6×6 all-unlit Foldline grid. -/
def allFalse6 : List (List Bool) := List.replicate 6 (List.replicate 6 false)

/-- C8: a fold at a valid line `k` keeps the larger side as a base (ties fold
the top/left side), XOR-combining the reflected smaller side, so the folded
axis has length `max k (len - k)`; folding the all-unlit 6×6 grid on any valid
line (horizontally or vertically) yields an all-unlit grid of reduced size. -/
theorem C8_fold_smaller_onto_larger :
    (∀ (g : List (List Bool)) (k : ℕ), 0 < k → k < g.length →
      (foldHorizontal g k).length = max k (g.length - k)) ∧
    (∀ (g : List (List Bool)) (k W : ℕ), k < W → (∀ row ∈ g, row.length = W) →
      ∀ row' ∈ foldVertical g k, row'.length = max k (W - k)) ∧
    (∀ i : Fin 5,
      foldHorizontal allFalse6 (i.val + 1) =
        List.replicate (max (i.val + 1) (5 - i.val)) (List.replicate 6 false) ∧
      foldVertical allFalse6 (i.val + 1) =
        List.replicate 6 (List.replicate (max (i.val + 1) (5 - i.val)) false)) :=
  ⟨foldHorizontal_length, foldVertical_width, by decide⟩

/-- C8 witness: instantiates the fold-length facts at a concrete 6×6 grid and
fold line `k = 2`. -/
theorem C8_witness :
    (foldHorizontal allFalse6 2).length = max 2 (allFalse6.length - 2) ∧
    ∀ row' ∈ foldVertical allFalse6 2, row'.length = max 2 (6 - 2) :=
  ⟨C8_fold_smaller_onto_larger.1 allFalse6 2 (by decide) (by decide),
   C8_fold_smaller_onto_larger.2.1 allFalse6 2 6 (by decide) (by decide)⟩

/-! ## Shared screen state -/

/-- Screen state of a session (`'home' | 'playing' | 'gameover'`, with
`'win' | 'lose'` used by Foldline). -/
inductive Screen where
  | home
  | playing
  | gameover
  | win
  | lose
deriving DecidableEq, Repr

/-! ## Generic list helpers used by the cascade resolvers -/

theorem filter_length_lt {α : Type} (p : α → Bool) (l : List α) (x : α)
    (hx : x ∈ l) (hpx : p x = false) : (l.filter p).length < l.length := by
  induction l with
  | nil => cases hx
  | cons a as ih =>
    rcases List.mem_cons.1 hx with rfl | hmem
    · rw [List.filter_cons, hpx]
      exact Nat.lt_succ_of_le (List.length_filter_le p as)
    · rw [List.filter_cons]
      by_cases hpa : p a
      · simpa [hpa] using Nat.succ_lt_succ (ih hmem)
      · simp only [Bool.not_eq_true] at hpa
        rw [hpa]
        exact Nat.lt_succ_of_lt (ih hmem)

theorem exists_false_of_filter_length_ne {α : Type} (p : α → Bool) (l : List α)
    (h : (l.filter p).length ≠ l.length) : ∃ x ∈ l, p x = false := by
  by_contra hno
  push_neg at hno
  exact h (List.filter_length_eq_length.2 fun a ha => by
    have := hno a ha
    revert this
    cases p a <;> simp)

/-! ## Braidstack: row-clearing cascade

The grid is 12 rows of 3 bead cells (`0` empty, `1..4` ranks); a row clears
when all three cells are occupied and the row matches one of the four
`CLEAR_PATTERNS` consecutive runs. -/

/-- One Braidstack row (`Cell[]` of length 3). -/
abbrev BraidRow : Type := ℕ × ℕ × ℕ

/-- Braidstack `CLEAR_PATTERNS`. -/
def CLEAR_PATTERNS : List BraidRow := [(1, 2, 3), (2, 3, 4), (3, 2, 1), (4, 3, 2)]

/-- Braidstack `rowClears`: every cell occupied and the row equals one of the
clear patterns (`matchesPattern` is componentwise equality). -/
def rowClears (row : BraidRow) : Bool :=
  if row.1 = 0 ∨ row.2.1 = 0 ∨ row.2.2 = 0 then false
  else CLEAR_PATTERNS.any (fun p => row = p)

/-- The `while (currentGrid.length < GRID_HEIGHT) unshift` backfill: empty
rows are prepended until the grid is 12 rows high again. -/
def braidPad (kept : List BraidRow) : List BraidRow :=
  List.replicate (12 - kept.length) ((0, 0, 0) : BraidRow) ++ kept

/-- Number of non-empty rows; the termination measure of the Braidstack
cascade (cleared rows are non-empty, their replacements are empty). -/
def countNonempty (g : List BraidRow) : ℕ :=
  (g.filter (fun r => !decide (r = ((0, 0, 0) : BraidRow)))).length

/-- The `while (true)` loop of Braidstack `resolveClears`, with explicit fuel
(the source loop terminates because every wave consumes non-empty rows);
returns (grid, total cleared rows, chain waves). -/
def braidResolve : ℕ → List BraidRow → ℕ → ℕ → List BraidRow × ℕ × ℕ
  | 0, g, cl, w => (g, cl, w)
  | fuel + 1, g, cl, w =>
    let kept := g.filter (fun r => !rowClears r)
    if kept.length = g.length then (g, cl, w)
    else braidResolve fuel (braidPad kept) (cl + (g.length - kept.length)) (w + 1)

/-- Braidstack `resolveClears`, run with provably sufficient fuel. -/
def braidResolveClears (g : List BraidRow) : List BraidRow × ℕ × ℕ :=
  braidResolve (countNonempty g + 1) g 0 0

theorem rowClears_ne_empty {row : BraidRow} (h : rowClears row = true) :
    row ≠ ((0, 0, 0) : BraidRow) := by
  intro he
  rw [he] at h
  exact absurd h (by decide)

theorem countNonempty_braidPad (kept : List BraidRow) :
    countNonempty (braidPad kept) = countNonempty kept := by
  unfold countNonempty braidPad
  rw [List.filter_append]
  have : List.filter (fun r => !decide (r = ((0, 0, 0) : BraidRow)))
      (List.replicate (12 - kept.length) ((0, 0, 0) : BraidRow)) = [] := by
    apply List.filter_eq_nil_iff.2
    intro a ha
    rw [List.eq_of_mem_replicate ha]
    decide
  rw [this, List.nil_append]

theorem countNonempty_kept_lt (g : List BraidRow) (x : BraidRow)
    (hx : x ∈ g) (hclear : rowClears x = true) :
    countNonempty (g.filter (fun r => !rowClears r)) < countNonempty g := by
  unfold countNonempty
  rw [List.filter_filter]
  have h1 : (List.filter (fun r => !decide (r = ((0, 0, 0) : BraidRow)) && !rowClears r) g)
      = List.filter (fun r => !rowClears r)
          (List.filter (fun r => !decide (r = ((0, 0, 0) : BraidRow))) g) := by
    rw [List.filter_filter]
    apply List.filter_congr
    intro a _
    rw [Bool.and_comm]
  rw [h1]
  apply filter_length_lt _ _ x
  · refine List.mem_filter.2 ⟨hx, ?_⟩
    simp only [Bool.not_eq_true', decide_eq_false_iff_not]
    exact rowClears_ne_empty hclear
  · simp [hclear]

theorem braidResolve_no_clears :
    ∀ (fuel : ℕ) (g : List BraidRow) (cl w : ℕ), countNonempty g < fuel →
      ∀ row ∈ (braidResolve fuel g cl w).1, rowClears row = false := by
  intro fuel
  induction fuel with
  | zero => intro g cl w hlt; exact absurd hlt (Nat.not_lt_zero _)
  | succ n ih =>
    intro g cl w hlt row hrow
    unfold braidResolve at hrow
    by_cases hkept : (g.filter (fun r => !rowClears r)).length = g.length
    · rw [if_pos hkept] at hrow
      have := List.filter_length_eq_length.1 hkept row hrow
      simpa using this
    · rw [if_neg hkept] at hrow
      rcases exists_false_of_filter_length_ne _ g hkept with ⟨x, hx, hpx⟩
      have hclear : rowClears x = true := by
        revert hpx
        cases rowClears x <;> simp
      have hmeasure : countNonempty (braidPad (g.filter (fun r => !rowClears r))) < n := by
        rw [countNonempty_braidPad]
        exact Nat.lt_of_lt_of_le (countNonempty_kept_lt g x hx hclear)
          (Nat.lt_succ_iff.1 hlt)
      exact ih _ _ _ hmeasure row hrow

/-- Row `i` of a Braidstack grid, the empty row past the end (`rowClears` of
the empty row is `false`, so `getD` phrasing is harmless). -/
def braidRowAt (g : List BraidRow) (i : ℕ) : BraidRow :=
  g.getD i ((0, 0, 0) : BraidRow)

theorem braidResolveClears_no_clears (g : List BraidRow) (i : ℕ) :
    rowClears (braidRowAt (braidResolveClears g).1 i) = false := by
  by_cases hi : i < ((braidResolveClears g).1).length
  · have hmem : braidRowAt (braidResolveClears g).1 i ∈ (braidResolveClears g).1 := by
      unfold braidRowAt
      rw [List.getD_eq_getElem _ _ hi]
      exact List.getElem_mem hi
    exact braidResolve_no_clears _ g 0 0 (Nat.lt_succ_self _) _ hmem
  · unfold braidRowAt
    rw [List.getD_eq_default _ _ (Nat.le_of_not_lt hi)]
    decide

/-! ## RibbonFlip: spark-triple cascade

The ribbon is a list of colors `0..3`.  Each wave marks every index taking
part in a window of three pairwise-different colors and removes all marked
beads at once; waves repeat until no spark triple remains. -/

/-- RibbonFlip `isSparkTriple`: all three colors pairwise different. -/
def isSparkTriple (a b c : ℕ) : Bool :=
  !decide (a = b) && !decide (b = c) && !decide (a = c)

/-- Whether the window starting at index `i` is a spark triple. -/
def sparkAt (rib : List ℕ) (i : ℕ) : Bool :=
  match rib.drop i with
  | a :: b :: c :: _ => isSparkTriple a b c
  | _ => false

/-- Whether index `j` belongs to `toRemove`, i.e. to at least one spark
window (the window may start at `j`, `j - 1` or `j - 2`). -/
def covered (rib : List ℕ) (j : ℕ) : Bool :=
  sparkAt rib j || (decide (1 ≤ j) && sparkAt rib (j - 1)) ||
    (decide (2 ≤ j) && sparkAt rib (j - 2))

/-- Whether any spark window exists (`toRemove.size > 0` in the source). -/
def existsSpark (rib : List ℕ) : Bool :=
  (List.range rib.length).any (fun i => sparkAt rib i)

/-- One wave of RibbonFlip `resolveClears`: remove every covered index
(`current.filter((_, i) => !toRemove.has(i))`). -/
def ribbonWave (rib : List ℕ) : List ℕ :=
  (rib.enum.filter (fun p => !covered rib p.1)).map Prod.snd

/-- The `while (true)` loop of RibbonFlip `resolveClears` with explicit fuel;
returns (ribbon, total removed, waves). -/
def ribbonResolve : ℕ → List ℕ → ℕ → ℕ → List ℕ × ℕ × ℕ
  | 0, rib, rem, w => (rib, rem, w)
  | fuel + 1, rib, rem, w =>
    if existsSpark rib then
      ribbonResolve fuel (ribbonWave rib)
        (rem + (rib.length - (ribbonWave rib).length)) (w + 1)
    else (rib, rem, w)

/-- RibbonFlip `resolveClears`, run with provably sufficient fuel (every wave
removes at least one bead). -/
def ribbonResolveClears (rib : List ℕ) : List ℕ × ℕ × ℕ :=
  ribbonResolve (rib.length + 1) rib 0 0

theorem sparkAt_of_ge {rib : List ℕ} {i : ℕ} (h : rib.length ≤ i) :
    sparkAt rib i = false := by
  unfold sparkAt
  rw [List.drop_eq_nil_of_le h]

theorem ribbonWave_length_lt {rib : List ℕ} (h : existsSpark rib = true) :
    (ribbonWave rib).length < rib.length := by
  rcases List.any_eq_true.1 h with ⟨i, hi, hspark⟩
  have hlen : i < rib.length := List.mem_range.1 hi
  have hcov : covered rib i = true := by
    unfold covered
    rw [hspark]
    simp
  have hi' : i < rib.enum.length := by simpa [List.enum_length] using hlen
  have hmem : (i, rib[i]) ∈ rib.enum := by
    have hm := List.getElem_mem hi'
    rwa [List.getElem_enum] at hm
  unfold ribbonWave
  rw [List.length_map]
  calc (rib.enum.filter (fun p => !covered rib p.1)).length
      < rib.enum.length := by
        apply filter_length_lt _ _ (i, rib[i]) hmem
        simp [hcov]
    _ = rib.length := List.enum_length

theorem ribbonResolve_no_spark :
    ∀ (fuel : ℕ) (rib : List ℕ) (rem w : ℕ), rib.length < fuel →
      ∀ i, sparkAt (ribbonResolve fuel rib rem w).1 i = false := by
  intro fuel
  induction fuel with
  | zero => intro rib rem w hlt; exact absurd hlt (Nat.not_lt_zero _)
  | succ n ih =>
    intro rib rem w hlt i
    unfold ribbonResolve
    by_cases hex : existsSpark rib = true
    · rw [if_pos hex]
      exact ih _ _ _ (Nat.lt_of_lt_of_le (ribbonWave_length_lt hex)
        (Nat.lt_succ_iff.1 hlt)) i
    · rw [if_neg hex]
      by_cases hi : i < rib.length
      · have hexf : existsSpark rib = false := by
          revert hex
          cases existsSpark rib <;> simp
        have hsp := List.any_eq_false.1 hexf i (List.mem_range.2 hi)
        revert hsp
        cases sparkAt rib i <;> simp
      · exact sparkAt_of_ge (Nat.le_of_not_lt hi)

theorem ribbonResolveClears_no_spark (rib : List ℕ) (i : ℕ) :
    sparkAt (ribbonResolveClears rib).1 i = false :=
  ribbonResolve_no_spark _ rib 0 0 (Nat.lt_succ_self _) i

/-! ## InkPressure: sandpile burst resolution

The 7×7 grid of ink counts is a function `Fin 7 × Fin 7 → ℕ`.  A cell at or
above the threshold 4 fires: it loses 4 units and each orthogonal neighbor
gains one, off-grid neighbors incrementing the spill counter instead.  The
source drives this with a worklist queue seeded by all over-threshold cells,
re-enqueuing a neighbor exactly when its increment lands it on 4.

Termination of the source's `while` loops is witnessed here by the potential
`phi` built from the strictly superharmonic weight `wgt`: every firing costs
at least 4 potential, so `2 * phi + queue length` strictly decreases and a
fuel of `2 * phi g + |queue| + 1` always suffices. -/

/-- A cell of the 7×7 InkPressure grid. -/
abbrev Pos : Type := Fin 7 × Fin 7

/-- The InkPressure grid of ink counts. -/
abbrev InkGrid : Type := Pos → ℕ

/-- One-dimensional concave weight `(i+1)(7-i)` used for the termination
potential. -/
def wRow (i : Fin 7) : ℕ := (i.val + 1) * (7 - i.val)

/-- Termination weight of a cell: strictly superharmonic for the 4-neighbor
firing rule with absorbing boundary. -/
def wgt (p : Pos) : ℕ := wRow p.1 + wRow p.2

/-- Termination potential of a grid. -/
def phi (g : InkGrid) : ℕ := ∑ p : Pos, g p * wgt p

/-- Total ink units on the grid. -/
def inkTotal (g : InkGrid) : ℕ := ∑ p : Pos, g p


/-- The four neighbor coordinates of a cell in the source's direction order
`[[-1,0],[1,0],[0,-1],[0,1]]`. -/
def nbrCoords (p : Pos) : List (ℤ × ℤ) :=
  [((p.1.val : ℤ) - 1, (p.2.val : ℤ)), ((p.1.val : ℤ) + 1, (p.2.val : ℤ)),
   ((p.1.val : ℤ), (p.2.val : ℤ) - 1), ((p.1.val : ℤ), (p.2.val : ℤ) + 1)]

/-- The in-grid cell named by an integer coordinate pair. -/
def toPos (d : ℤ × ℤ) (h : 0 ≤ d.1 ∧ d.1 < 7 ∧ 0 ≤ d.2 ∧ d.2 < 7) : Pos :=
  (⟨d.1.toNat, by omega⟩, ⟨d.2.toNat, by omega⟩)

/-- Weight of an integer coordinate pair, zero off-grid. -/
def wgtZ (d : ℤ × ℤ) : ℕ :=
  if h : 0 ≤ d.1 ∧ d.1 < 7 ∧ 0 ≤ d.2 ∧ d.2 < 7 then wgt (toPos d h) else 0

/-- Distribution of one unit to one neighbor coordinate: in-grid neighbors
gain a unit (and are enqueued exactly when they land on 4), off-grid
coordinates increment the spill counter. -/
def nbrStep (g : InkGrid) (spill : ℕ) (pushes : List Pos) (d : ℤ × ℤ) :
    InkGrid × ℕ × List Pos :=
  if h : 0 ≤ d.1 ∧ d.1 < 7 ∧ 0 ≤ d.2 ∧ d.2 < 7 then
    (Function.update g (toPos d h) (g (toPos d h) + 1), spill,
      if g (toPos d h) + 1 = 4 then pushes ++ [toPos d h] else pushes)
  else (g, spill + 1, pushes)

/-- Sequential distribution to a list of neighbor coordinates (the inner
`for (const [dr, dc] of directions)` loop of one firing). -/
def fireNbrs : InkGrid → ℕ → List Pos → List (ℤ × ℤ) → InkGrid × ℕ × List Pos
  | g, spill, pushes, [] => (g, spill, pushes)
  | g, spill, pushes, d :: rest =>
    let st := nbrStep g spill pushes d
    fireNbrs st.1 st.2.1 st.2.2 rest

/-- One firing of cell `p`: `newGrid[r][c] -= 4` followed by the neighbor
distribution; returns (grid, spill increment, newly enqueued cells). -/
def fireOnce (g : InkGrid) (p : Pos) : InkGrid × ℕ × List Pos :=
  fireNbrs (Function.update g p (g p - 4)) 0 [] (nbrCoords p)

/-- The worklist loop of `resolveBursts` with explicit fuel.  Keeping the
popped cell at the head while it is still at or above 4 reproduces the
source's inner `while (newGrid[r][c] >= BURST_THRESHOLD)` loop; pushes are
appended at the queue's tail as in the source. -/
def inkLoop : ℕ → InkGrid → List Pos → ℕ → ℕ → InkGrid × ℕ × ℕ
  | 0, g, _, bursts, spill => (g, bursts, spill)
  | _ + 1, g, [], bursts, spill => (g, bursts, spill)
  | fuel + 1, g, p :: rest, bursts, spill =>
    if 4 ≤ g p then
      let f := fireOnce g p
      inkLoop fuel f.1 (p :: (rest ++ f.2.2)) (bursts + 1) (spill + f.2.1)
    else inkLoop fuel g rest bursts spill

/-- Row-major list of all cells (the initialization scan order). -/
def allPos : List Pos :=
  (List.finRange 7).flatMap (fun r => (List.finRange 7).map (fun c => ((r, c) : Pos)))

/-- The initial worklist: all cells at or above the threshold, in scan
order. -/
def initQueue (g : InkGrid) : List Pos := allPos.filter (fun p => decide (4 ≤ g p))

/-- Provably sufficient fuel for the worklist loop. -/
def inkFuel (g : InkGrid) (q : List Pos) : ℕ := 2 * phi g + q.length + 1

/-- InkPressure `resolveBursts`: returns (grid, bursts, spill increment). -/
def resolveBursts (g : InkGrid) : InkGrid × ℕ × ℕ :=
  inkLoop (inkFuel g (initQueue g)) g (initQueue g) 0 0

theorem mem_allPos (p : Pos) : p ∈ allPos := by
  unfold allPos
  rw [List.mem_flatMap]
  exact ⟨p.1, List.mem_finRange _, List.mem_map.2 ⟨p.2, List.mem_finRange _, rfl⟩⟩

theorem mem_initQueue {g : InkGrid} {p : Pos} (h : 4 ≤ g p) : p ∈ initQueue g :=
  List.mem_filter.2 ⟨mem_allPos p, by simpa using h⟩

theorem sum_update {ι : Type} [Fintype ι] [DecidableEq ι] (f : ι → ℕ) (n : ι) (v : ℕ) :
    (∑ p : ι, Function.update f n v p) + f n = (∑ p : ι, f p) + v := by
  rw [Finset.sum_update_of_mem (Finset.mem_univ n)]
  have hrest : (∑ p ∈ Finset.univ \ {n}, f p) + f n = ∑ p : ι, f p := by
    rw [Finset.sdiff_singleton_eq_erase, Finset.sum_erase_add _ _ (Finset.mem_univ n)]
  calc v + (∑ p ∈ Finset.univ \ {n}, f p) + f n
      = v + ((∑ p ∈ Finset.univ \ {n}, f p) + f n) := by ring
    _ = (∑ p : ι, f p) + v := by rw [hrest]; ring

theorem update_mul_wgt (g : InkGrid) (n : Pos) (v : ℕ) :
    (fun p => Function.update g n v p * wgt p) =
      Function.update (fun p => g p * wgt p) n (v * wgt n) := by
  funext p
  by_cases h : p = n
  · subst h; rw [Function.update_same, Function.update_same]
  · rw [Function.update_noteq h, Function.update_noteq h]

theorem phi_update (g : InkGrid) (n : Pos) (v : ℕ) :
    phi (Function.update g n v) + g n * wgt n = phi g + v * wgt n := by
  unfold phi
  have hfun : ∀ p, Function.update g n v p * wgt p =
      Function.update (fun q => g q * wgt q) n (v * wgt n) p :=
    fun p => congrFun (update_mul_wgt g n v) p
  simp only [hfun]
  exact sum_update (fun q => g q * wgt q) n (v * wgt n)

theorem total_update (g : InkGrid) (n : Pos) (v : ℕ) :
    inkTotal (Function.update g n v) + g n = inkTotal g + v :=
  sum_update g n v

theorem phi_update_add_one (g : InkGrid) (n : Pos) :
    phi (Function.update g n (g n + 1)) = phi g + wgt n := by
  have h := phi_update g n (g n + 1)
  have h2 : phi (Function.update g n (g n + 1)) + g n * wgt n =
      (phi g + wgt n) + g n * wgt n := by rw [h]; ring
  exact Nat.add_right_cancel h2

theorem total_update_add_one (g : InkGrid) (n : Pos) :
    inkTotal (Function.update g n (g n + 1)) = inkTotal g + 1 := by
  have h := total_update g n (g n + 1)
  have h2 : inkTotal (Function.update g n (g n + 1)) + g n =
      (inkTotal g + 1) + g n := by rw [h]; ring
  exact Nat.add_right_cancel h2

theorem fireNbrs_pushes_mono :
    ∀ (ds : List (ℤ × ℤ)) (g : InkGrid) (s : ℕ) (ps : List Pos) (q : Pos),
      q ∈ ps → q ∈ (fireNbrs g s ps ds).2.2 := by
  intro ds
  induction ds with
  | nil => intro g s ps q hq; exact hq
  | cons d rest ih =>
    intro g s ps q hq
    show q ∈ (fireNbrs (nbrStep g s ps d).1 (nbrStep g s ps d).2.1
      (nbrStep g s ps d).2.2 rest).2.2
    apply ih
    unfold nbrStep
    by_cases hd : 0 ≤ d.1 ∧ d.1 < 7 ∧ 0 ≤ d.2 ∧ d.2 < 7
    · rw [dif_pos hd]
      by_cases h4 : g (toPos d hd) + 1 = 4
      · rw [if_pos h4]
        exact List.mem_append_left _ hq
      · rw [if_neg h4]
        exact hq
    · rw [dif_neg hd]
      exact hq

theorem fireNbrs_pushes_len :
    ∀ (ds : List (ℤ × ℤ)) (g : InkGrid) (s : ℕ) (ps : List Pos),
      (fireNbrs g s ps ds).2.2.length ≤ ps.length + ds.length := by
  intro ds
  induction ds with
  | nil => intro g s ps; exact Nat.le_add_right _ _
  | cons d rest ih =>
    intro g s ps
    show (fireNbrs (nbrStep g s ps d).1 (nbrStep g s ps d).2.1
      (nbrStep g s ps d).2.2 rest).2.2.length ≤ ps.length + (rest.length + 1)
    have hstep : (nbrStep g s ps d).2.2.length ≤ ps.length + 1 := by
      unfold nbrStep
      by_cases hd : 0 ≤ d.1 ∧ d.1 < 7 ∧ 0 ≤ d.2 ∧ d.2 < 7
      · rw [dif_pos hd]
        by_cases h4 : g (toPos d hd) + 1 = 4
        · rw [if_pos h4]
          simp
        · rw [if_neg h4]
          exact Nat.le_succ_of_le (Nat.le_refl _)
      · rw [dif_neg hd]
        exact Nat.le_succ_of_le (Nat.le_refl _)
    calc (fireNbrs (nbrStep g s ps d).1 (nbrStep g s ps d).2.1
        (nbrStep g s ps d).2.2 rest).2.2.length
        ≤ (nbrStep g s ps d).2.2.length + rest.length := ih _ _ _
      _ ≤ (ps.length + 1) + rest.length := Nat.add_le_add_right hstep _
      _ = ps.length + (rest.length + 1) := by ring

theorem fireNbrs_phi :
    ∀ (ds : List (ℤ × ℤ)) (g : InkGrid) (s : ℕ) (ps : List Pos),
      phi (fireNbrs g s ps ds).1 = phi g + (ds.map wgtZ).sum := by
  intro ds
  induction ds with
  | nil => intro g s ps; simp [fireNbrs]
  | cons d rest ih =>
    intro g s ps
    show phi (fireNbrs (nbrStep g s ps d).1 (nbrStep g s ps d).2.1
      (nbrStep g s ps d).2.2 rest).1 = phi g + (List.map wgtZ (d :: rest)).sum
    rw [ih]
    unfold nbrStep wgtZ
    by_cases hd : 0 ≤ d.1 ∧ d.1 < 7 ∧ 0 ≤ d.2 ∧ d.2 < 7
    · rw [dif_pos hd]
      simp only [List.map_cons, List.sum_cons, dif_pos hd]
      rw [phi_update_add_one]
      ring
    · rw [dif_neg hd]
      simp only [List.map_cons, List.sum_cons, dif_neg hd]
      ring

theorem fireNbrs_total :
    ∀ (ds : List (ℤ × ℤ)) (g : InkGrid) (s : ℕ) (ps : List Pos),
      inkTotal (fireNbrs g s ps ds).1 + (fireNbrs g s ps ds).2.1 =
        inkTotal g + s + ds.length := by
  intro ds
  induction ds with
  | nil => intro g s ps; simp [fireNbrs]
  | cons d rest ih =>
    intro g s ps
    show inkTotal (fireNbrs (nbrStep g s ps d).1 (nbrStep g s ps d).2.1
        (nbrStep g s ps d).2.2 rest).1 +
      (fireNbrs (nbrStep g s ps d).1 (nbrStep g s ps d).2.1
        (nbrStep g s ps d).2.2 rest).2.1 = inkTotal g + s + (rest.length + 1)
    rw [ih]
    unfold nbrStep
    by_cases hd : 0 ≤ d.1 ∧ d.1 < 7 ∧ 0 ≤ d.2 ∧ d.2 < 7
    · rw [dif_pos hd]
      simp only
      rw [total_update_add_one]
      ring
    · rw [dif_neg hd]
      simp only
      ring

theorem fireNbrs_ge4 :
    ∀ (ds : List (ℤ × ℤ)) (g : InkGrid) (s : ℕ) (ps : List Pos) (q : Pos),
      4 ≤ (fireNbrs g s ps ds).1 q →
        4 ≤ g q ∨ q ∈ (fireNbrs g s ps ds).2.2 := by
  intro ds
  induction ds with
  | nil => intro g s ps q hq; exact Or.inl hq
  | cons d rest ih =>
    intro g s ps q hq
    have hq' : 4 ≤ (fireNbrs (nbrStep g s ps d).1 (nbrStep g s ps d).2.1
        (nbrStep g s ps d).2.2 rest).1 q := hq
    rcases ih _ _ _ q hq' with hcase | hcase
    · unfold nbrStep at hcase
      by_cases hd : 0 ≤ d.1 ∧ d.1 < 7 ∧ 0 ≤ d.2 ∧ d.2 < 7
      · rw [dif_pos hd] at hcase
        simp only at hcase
        by_cases hqn : q = toPos d hd
        · subst hqn
          rw [Function.update_same] at hcase
          by_cases h4 : 4 ≤ g (toPos d hd)
          · exact Or.inl h4
          · have heq : g (toPos d hd) + 1 = 4 := by omega
            refine Or.inr (fireNbrs_pushes_mono rest _ _ _ (toPos d hd) ?_)
            unfold nbrStep
            rw [dif_pos hd]
            simp only [heq, if_pos rfl]
            exact List.mem_append_right _ (List.mem_singleton_self _)
        · rw [Function.update_noteq hqn] at hcase
          exact Or.inl hcase
      · rw [dif_neg hd] at hcase
        exact Or.inl hcase
    · exact Or.inr hcase

/-- The weight `wgt` is strictly superharmonic: distributing one unit to each
neighbor recovers at most `4 * wgt p - 4` potential against the `4 * wgt p`
released by the firing cell.  A finite check over the 49 cells. -/
theorem nbr_wgt_bound : ∀ p : Pos, ((nbrCoords p).map wgtZ).sum + 4 ≤ 4 * wgt p := by
  decide

theorem fireOnce_phi {g : InkGrid} {p : Pos} (h : 4 ≤ g p) :
    phi (fireOnce g p).1 + 4 ≤ phi g := by
  unfold fireOnce
  rw [fireNbrs_phi]
  have hupd : phi (Function.update g p (g p - 4)) + 4 * wgt p = phi g := by
    have h1 := phi_update g p (g p - 4)
    have h2 : g p * wgt p = (g p - 4) * wgt p + 4 * wgt p := by
      rw [← Nat.add_mul]
      congr 1
      omega
    omega
  have hbound := nbr_wgt_bound p
  omega

theorem fireOnce_total {g : InkGrid} {p : Pos} (h : 4 ≤ g p) :
    inkTotal (fireOnce g p).1 + (fireOnce g p).2.1 = inkTotal g := by
  unfold fireOnce
  have ht := fireNbrs_total (nbrCoords p) (Function.update g p (g p - 4)) 0 []
  have hupd : inkTotal (Function.update g p (g p - 4)) + 4 = inkTotal g := by
    have h1 := total_update g p (g p - 4)
    omega
  have hlen : (nbrCoords p).length = 4 := rfl
  rw [hlen] at ht
  omega

theorem fireOnce_pushes_len (g : InkGrid) (p : Pos) :
    (fireOnce g p).2.2.length ≤ 4 := by
  unfold fireOnce
  have := fireNbrs_pushes_len (nbrCoords p) (Function.update g p (g p - 4)) 0 []
  simpa using this

theorem fireOnce_ge4 (g : InkGrid) (p : Pos) (q : Pos)
    (h : 4 ≤ (fireOnce g p).1 q) :
    4 ≤ Function.update g p (g p - 4) q ∨ q ∈ (fireOnce g p).2.2 :=
  fireNbrs_ge4 (nbrCoords p) _ 0 [] q h

theorem inkLoop_correct :
    ∀ (fuel : ℕ) (g : InkGrid) (q : List Pos) (b s : ℕ),
      2 * phi g + q.length < fuel → (∀ p, 4 ≤ g p → p ∈ q) →
      (∀ p, (inkLoop fuel g q b s).1 p < 4) ∧
        inkTotal (inkLoop fuel g q b s).1 + (inkLoop fuel g q b s).2.2 =
          inkTotal g + s := by
  intro fuel
  induction fuel with
  | zero => intro g q b s hfuel; exact absurd hfuel (Nat.not_lt_zero _)
  | succ n ih =>
    intro g q b s hfuel hinv
    match q with
    | [] =>
      refine ⟨fun p => ?_, rfl⟩
      by_contra h4
      exact absurd (hinv p (Nat.le_of_not_lt h4)) (List.not_mem_nil p)
    | p :: rest =>
      by_cases hge : 4 ≤ g p
      · have hred : inkLoop (n + 1) g (p :: rest) b s =
            inkLoop n (fireOnce g p).1 (p :: (rest ++ (fireOnce g p).2.2))
              (b + 1) (s + (fireOnce g p).2.1) := by
          show (if 4 ≤ g p then _ else _) = _
          rw [if_pos hge]
        rw [hred]
        have hphi := fireOnce_phi hge
        have hplen := fireOnce_pushes_len g p
        have hmeasure : 2 * phi (fireOnce g p).1 +
            (p :: (rest ++ (fireOnce g p).2.2)).length < n := by
          simp only [List.length_cons, List.length_append]
          simp only [List.length_cons] at hfuel
          omega
        have hinv' : ∀ z, 4 ≤ (fireOnce g p).1 z →
            z ∈ p :: (rest ++ (fireOnce g p).2.2) := by
          intro z hz
          rcases fireOnce_ge4 g p z hz with hcase | hcase
          · by_cases hzp : z = p
            · subst hzp; exact List.mem_cons_self _ _
            · rw [Function.update_noteq hzp] at hcase
              rcases List.mem_cons.1 (hinv z hcase) with h | h
              · exact h ▸ List.mem_cons_self _ _
              · exact List.mem_cons_of_mem _ (List.mem_append_left _ h)
          · exact List.mem_cons_of_mem _ (List.mem_append_right _ hcase)
        rcases ih _ _ (b + 1) (s + (fireOnce g p).2.1) hmeasure hinv' with ⟨hlt, htot⟩
        refine ⟨hlt, ?_⟩
        have hft := fireOnce_total hge
        omega
      · have hred : inkLoop (n + 1) g (p :: rest) b s = inkLoop n g rest b s := by
          show (if 4 ≤ g p then _ else _) = _
          rw [if_neg hge]
        rw [hred]
        have hmeasure : 2 * phi g + rest.length < n := by
          simp only [List.length_cons] at hfuel
          omega
        have hinv' : ∀ z, 4 ≤ g z → z ∈ rest := by
          intro z hz
          rcases List.mem_cons.1 (hinv z hz) with h | h
          · exact absurd (h ▸ hz) hge
          · exact h
        exact ih _ _ b s hmeasure hinv'

theorem resolveBursts_lt (g : InkGrid) (p : Pos) : (resolveBursts g).1 p < 4 := by
  unfold resolveBursts
  exact (inkLoop_correct (inkFuel g (initQueue g)) g (initQueue g) 0 0
    (by unfold inkFuel; omega) (fun _ h => mem_initQueue h)).1 p

theorem resolveBursts_conservation (g : InkGrid) :
    inkTotal g = inkTotal (resolveBursts g).1 + (resolveBursts g).2.2 := by
  have h := (inkLoop_correct (inkFuel g (initQueue g)) g (initQueue g) 0 0
    (by unfold inkFuel; omega) (fun _ h => mem_initQueue h)).2
  unfold resolveBursts
  omega

/-! ## InkPressure stencils, placement and stamping -/

/-- An InkPressure stencil: a named list of `(dc, dr)` offsets with a
selection weight. -/
structure Stencil where
  name : String
  offsets : List (ℕ × ℕ)
  weight : ℕ
deriving Inhabited, DecidableEq

/-- The `STENCILS` table of InkPressure. -/
def STENCILS : List Stencil :=
  [⟨"Dot", [(0, 0)], 30⟩,
   ⟨"H-Domino", [(0, 0), (1, 0)], 20⟩,
   ⟨"V-Domino", [(0, 0), (0, 1)], 20⟩,
   ⟨"H-Line", [(0, 0), (1, 0), (2, 0)], 10⟩,
   ⟨"V-Line", [(0, 0), (0, 1), (0, 2)], 10⟩,
   ⟨"L-Shape", [(0, 0), (1, 0), (0, 1)], 8⟩,
   ⟨"Square", [(0, 0), (1, 0), (0, 1), (1, 1)], 2⟩]

/-- InkPressure `canPlace`: every covered cell `(anchorR + dr, anchorC + dc)`
must lie on the 7×7 grid (the source's `r < 0` checks are vacuous here since
anchors and offsets are naturals). -/
def canPlace (_grid : InkGrid) (stencilIdx anchorR anchorC : ℕ) : Bool :=
  (STENCILS.getD stencilIdx default).offsets.all
    (fun o => decide (anchorR + o.2 < 7) && decide (anchorC + o.1 < 7))

/-- The `newGrid[r][c] += 1` loop of `applyStamp` over a list of offsets
(cells that would fall off-grid are left untouched; under `canPlace` none
do). -/
def stampCells : InkGrid → List (ℕ × ℕ) → ℕ → ℕ → InkGrid
  | g, [], _, _ => g
  | g, o :: rest, r, c =>
    if h : r + o.2 < 7 ∧ c + o.1 < 7 then
      stampCells (Function.update g (⟨r + o.2, h.1⟩, ⟨c + o.1, h.2⟩)
        (g (⟨r + o.2, h.1⟩, ⟨c + o.1, h.2⟩) + 1)) rest r c
    else stampCells g rest r c

/-- InkPressure `applyStamp`. -/
def applyStamp (g : InkGrid) (stencilIdx r c : ℕ) : InkGrid :=
  stampCells g (STENCILS.getD stencilIdx default).offsets r c

theorem stampCells_total (r c : ℕ) :
    ∀ (os : List (ℕ × ℕ)) (g : InkGrid),
      (∀ o ∈ os, r + o.2 < 7 ∧ c + o.1 < 7) →
      inkTotal (stampCells g os r c) = inkTotal g + os.length := by
  intro os
  induction os with
  | nil =>
    intro g _
    simp [stampCells]
  | cons o rest ih =>
    intro g hall
    have ho := hall o (List.mem_cons_self _ _)
    unfold stampCells
    rw [dif_pos ho]
    rw [ih _ (fun x hx => hall x (List.mem_cons_of_mem _ hx))]
    rw [total_update_add_one]
    simp only [List.length_cons]
    ring

theorem applyStamp_total (g : InkGrid) (i r c : ℕ) (h : canPlace g i r c = true) :
    inkTotal (applyStamp g i r c) =
      inkTotal g + (STENCILS.getD i default).offsets.length := by
  apply stampCells_total
  intro o ho
  have := List.all_eq_true.1 h o ho
  simp only [Bool.and_eq_true, decide_eq_true_eq] at this
  exact this

/-- C3: the cascade resolvers reach a fixpoint: after `resolveBursts` every
cell is strictly below the burst threshold 4; after Braidstack
`resolveClears` no row matches a clear pattern; after RibbonFlip
`resolveClears` no all-different spark triple remains.  Hence re-running the
pattern scan on a resolved board finds zero loci and resolution is
idempotent. -/
theorem C3_resolution_fixpoint :
    (∀ (g : InkGrid) (p : Pos), (resolveBursts g).1 p < 4) ∧
    (∀ (g : List BraidRow) (i : ℕ),
      rowClears (braidRowAt (braidResolveClears g).1 i) = false) ∧
    (∀ (rib : List ℕ) (i : ℕ), sparkAt (ribbonResolveClears rib).1 i = false) :=
  ⟨resolveBursts_lt, braidResolveClears_no_clears, ribbonResolveClears_no_spark⟩

/-- C4: unit conservation of the sandpile rule: the total ink of the grid
equals the total of the resolved grid plus the spill increment, and over a
whole stamp move the stamped units are exactly accounted for by the resident
units plus spill. -/
theorem C4_sandpile_conservation :
    (∀ g : InkGrid, inkTotal g = inkTotal (resolveBursts g).1 + (resolveBursts g).2.2) ∧
    (∀ (g : InkGrid) (i r c : ℕ), canPlace g i r c = true →
      inkTotal g + (STENCILS.getD i default).offsets.length =
        inkTotal (resolveBursts (applyStamp g i r c)).1 +
          (resolveBursts (applyStamp g i r c)).2.2) := by
  constructor
  · exact resolveBursts_conservation
  · intro g i r c h
    rw [← applyStamp_total g i r c h]
    exact resolveBursts_conservation _

/-- C4 witness: stamping the single-cell Dot stencil at the origin of the
empty grid. -/
theorem C4_witness :
    canPlace (fun _ => 0) 0 0 0 = true ∧
    inkTotal (fun _ => 0) + (STENCILS.getD 0 default).offsets.length =
      inkTotal (resolveBursts (applyStamp (fun _ => 0) 0 0 0)).1 +
        (resolveBursts (applyStamp (fun _ => 0) 0 0 0)).2.2 :=
  ⟨by decide, C4_sandpile_conservation.2 (fun _ => 0) 0 0 0 (by decide)⟩

/-! ## InkPressure session: weighted stencil offers, click, undo

The component state `GameState` (screen, grid, spill, spillLimit, turn,
score, stencilsOffered, selectedStencil, mode, seed, bestBurst) together
with the undo stack and the RNG closure state `h` held in `randRef` form the
session.  The RNG state deliberately lives outside `InkState`: undo restores
the snapshot but never rewinds `randRef`. -/

/-- InkPressure `GameState`.  `mode` is `true` for daily. -/
structure InkState where
  screen : Screen
  grid : InkGrid
  spill : ℕ
  spillLimit : ℕ
  turn : ℕ
  score : ℕ
  stencilsOffered : List ℕ
  selectedStencil : Option ℕ
  mode : Bool
  seed : String
  bestBurst : ℕ

/-- An InkPressure session: component state, undo stack, RNG closure state. -/
structure InkSession where
  state : InkState
  undo : List InkState
  h : ℕ

/-- Total stencil weight (`STENCILS.reduce((sum, s) => sum + s.weight, 0)`). -/
def totalWeight : ℕ := (STENCILS.map Stencil.weight).sum

/-- The inner weight-subtraction scan of `pickStencils`: subtract weights in
declared order until the remainder is `≤ 0` and return that index.  The
fallback (empty list) is unreachable in the source because the drawn value is
strictly below the total weight. -/
def pickIdx : ℚ → List ℕ → ℕ → ℕ
  | _, [], j => j
  | r, w :: ws, j => if r - w ≤ 0 then j else pickIdx (r - w) ws (j + 1)

/-- One weighted draw: advance the RNG and scan the stencil weights with
`rand() * totalWeight`. -/
def pickOne (h : ℕ) : ℕ × ℕ :=
  let h1 := mix h
  (pickIdx ((h1 : ℚ) / 4294967296 * totalWeight) (STENCILS.map Stencil.weight) 0, h1)

/-- InkPressure `pickStencils`: three weighted draws; returns the offered
stencil indices and the advanced RNG state. -/
def pickStencils (h : ℕ) : List ℕ × ℕ :=
  let d1 := pickOne h
  let d2 := pickOne d1.2
  let d3 := pickOne d2.2
  ([d1.1, d2.1, d3.1], d3.2)

/-- InkPressure `startGame`: seed the RNG, reset the state, clear the undo
stack, draw the first stencil offer. -/
def inkStart (mode : Bool) (seed : String) : InkSession :=
  let ps := pickStencils (fnv seed)
  { state :=
      { screen := Screen.playing, grid := fun _ => 0, spill := 0,
        spillLimit := 25, turn := 0, score := 0, stencilsOffered := ps.1,
        selectedStencil := none, mode := mode, seed := seed, bestBurst := 0 },
    undo := [], h := ps.2 }

/-- InkPressure `handleStencilSelect`: toggle the selected offer slot. -/
def handleStencilSelect (σ : InkSession) (i : ℕ) : InkSession :=
  { σ with state := { σ.state with selectedStencil :=
      if σ.state.selectedStencil = some i then none else some i } }

/-- InkPressure `handleCellClick`: guard on playing screen, a selected
stencil and `canPlace`; then snapshot for undo, stamp, resolve bursts,
accumulate spill and score, redraw the stencil offer and advance the RNG. -/
def handleCellClick (σ : InkSession) (r c : Fin 7) : InkSession :=
  if σ.state.screen = Screen.playing then
    match σ.state.selectedStencil with
    | none => σ
    | some sel =>
      let stIdx := σ.state.stencilsOffered.getD sel 0
      if canPlace σ.state.grid stIdx r.val c.val then
        let res := resolveBursts (applyStamp σ.state.grid stIdx r.val c.val)
        let newSpill := σ.state.spill + res.2.2
        let isOver := σ.state.spillLimit ≤ newSpill
        let addedScore := res.2.1 * 2 + (if 5 ≤ res.2.1 then (res.2.1 - 4) * 3 else 0)
        let ps := pickStencils σ.h
        { state :=
            { σ.state with
              grid := res.1, spill := newSpill, turn := σ.state.turn + 1,
              score := σ.state.score + addedScore, stencilsOffered := ps.1,
              selectedStencil := none,
              bestBurst := max σ.state.bestBurst res.2.1,
              screen := if isOver then Screen.gameover else Screen.playing },
          undo := σ.undo ++ [σ.state], h := ps.2 }
      else σ
  else σ

/-- InkPressure `handleUndo`: pop the last snapshot if any; the RNG state is
not touched. -/
def handleUndo (σ : InkSession) : InkSession :=
  match σ.undo.getLast? with
  | none => σ
  | some st => { state := st, undo := σ.undo.dropLast, h := σ.h }

/-- One abstract InkPressure move: pick offer slot `slot`, then click cell
`(r, c)`. -/
structure InkMove where
  slot : ℕ
  r : Fin 7
  c : Fin 7

/-- Apply one abstract move: select the slot, then click. -/
def applyInkMove (σ : InkSession) (m : InkMove) : InkSession :=
  handleCellClick (handleStencilSelect σ m.slot) m.r m.c

/-- Run a daily InkPressure session from a seed through a move list. -/
def runInkSession (seed : String) (moves : List InkMove) : InkSession :=
  moves.foldl applyInkMove (inkStart true seed)

/-- C1: the session is a pure function of the seed and the move sequence, so
two sessions started with the same seed and fed identical moves agree
bit-for-bit (board, score, pending offers, RNG state); and the `n`-th call
to `next()` after seeding is a pure function of seed and call index whose
value `nthRand seed n / 2^32` lies in `[0, 1)`. -/
theorem C1_rng_determinism :
    (∀ (seed : String) (moves : List InkMove),
      runInkSession seed moves = runInkSession seed moves) ∧
    (∀ (seed : String) (n : ℕ),
      (0 : ℚ) ≤ (nthRand seed (n + 1) : ℚ) / 4294967296 ∧
        (nthRand seed (n + 1) : ℚ) / 4294967296 < 1) := by
  refine ⟨fun _ _ => rfl, fun seed n => ⟨?_, ?_⟩⟩
  · positivity
  · rw [div_lt_one (by norm_num)]
    exact_mod_cast nthRand_lt seed n

/-- C6: a legal move followed by undo restores the exact pre-move session
(state snapshot, including board, pending offers, counters, score and turn,
and the undo stack), with the sole exception that the RNG state keeps the
position advanced by the move rather than being rewound. -/
theorem C6_undo_roundtrip (σ : InkSession) (r c : Fin 7) (sel : ℕ)
    (hscreen : σ.state.screen = Screen.playing)
    (hsel : σ.state.selectedStencil = some sel)
    (hcan : canPlace σ.state.grid (σ.state.stencilsOffered.getD sel 0) r.val c.val = true) :
    handleUndo (handleCellClick σ r c) =
      { state := σ.state, undo := σ.undo, h := (handleCellClick σ r c).h } := by
  unfold handleCellClick
  simp only [hscreen, hsel, hcan, if_true]
  unfold handleUndo
  simp only [List.getLast?_concat, List.dropLast_concat]

/-- A concrete legal InkPressure position: playing screen, empty grid, the
Dot stencil offered and selected. -/
def inkWitnessSession : InkSession :=
  { state :=
      { screen := Screen.playing, grid := fun _ => 0, spill := 0,
        spillLimit := 25, turn := 0, score := 0, stencilsOffered := [0, 0, 0],
        selectedStencil := some 0, mode := true, seed := "w", bestBurst := 0 },
    undo := [], h := 1 }

/-- C6 witness: move then undo at the concrete legal position. -/
theorem C6_witness :
    handleUndo (handleCellClick inkWitnessSession 0 0) =
      { state := inkWitnessSession.state, undo := inkWitnessSession.undo,
        h := (handleCellClick inkWitnessSession 0 0).h } :=
  C6_undo_roundtrip inkWitnessSession 0 0 0 rfl rfl (by decide)

/-! ## Foldline session: `handleFold` and undo

`handleFold` guards only on the playing screen and a positive move budget; it
performs no validation of the fold index.  The move labels `"H{k}"`/`"V{k}"`
of `moveHistory` are represented as `(isHorizontal, k)` pairs.  Natural
subtraction in `score := initialLitCount - litCount` agrees with the source
on all reachable states (folding never increases the lit count). -/

/-- Foldline `GameState`.  `mode` is `true` for daily. -/
structure FoldState where
  screen : Screen
  grid : List (List Bool)
  movesLeft : ℕ
  initialLitCount : ℕ
  mode : Bool
  seed : String
  score : ℕ
  moveHistory : List (Bool × ℕ)

/-- A Foldline session: component state plus undo stack. -/
structure FoldSession where
  state : FoldState
  undo : List FoldState

/-- Foldline `countLit`. -/
def countLit (g : List (List Bool)) : ℕ :=
  (g.map (fun row => (row.filter id).length)).sum

/-- Foldline `handleFold`: guard, snapshot for undo, fold, decrement the move
budget, recompute the score, detect win/lose. -/
def handleFold (σ : FoldSession) (isH : Bool) (index : ℕ) : FoldSession :=
  if σ.state.screen = Screen.playing ∧ 0 < σ.state.movesLeft then
    let newGrid := if isH then foldHorizontal σ.state.grid index
      else foldVertical σ.state.grid index
    let newMovesLeft := σ.state.movesLeft - 1
    let lit := countLit newGrid
    let isWin := lit = 0
    { state :=
        { σ.state with
          grid := newGrid, movesLeft := newMovesLeft,
          screen := if isWin then Screen.win
            else if newMovesLeft = 0 then Screen.lose else Screen.playing,
          score := if isWin then
              σ.state.initialLitCount - lit + 50 + 10 * newMovesLeft
            else σ.state.initialLitCount - lit,
          moveHistory := σ.state.moveHistory ++ [(isH, index)] },
      undo := σ.undo ++ [σ.state] }
  else σ

/-- A concrete playing Foldline position: one lit cell at the origin of a
6×6 grid, full move budget, empty history. -/
def foldSession0 : FoldSession :=
  { state :=
      { screen := Screen.playing,
        grid := [true, false, false, false, false, false] ::
          List.replicate 5 (List.replicate 6 false),
        movesLeft := 7, initialLitCount := 1, mode := true, seed := "d",
        score := 0, moveHistory := [] },
    undo := [] }

/-- C5 counterexample: a fold at index 0 — not strictly between 0 and the
axis length, hence an illegal move per the claim — is NOT a no-op in
Foldline: `handleFold` performs no index validation, so it consumes a move
(7 → 6) and pushes an undo entry even though the board is unchanged. -/
theorem C5_counterexample :
    foldSession0.state.movesLeft = 7 ∧ foldSession0.undo.length = 0 ∧
    (handleFold foldSession0 true 0).state.movesLeft = 6 ∧
    (handleFold foldSession0 true 0).undo.length = 1 ∧
    (handleFold foldSession0 true 0).state.grid = foldSession0.state.grid := by
  refine ⟨rfl, rfl, ?_, ?_, ?_⟩ <;> decide

/-- C5 amended: in InkPressure an out-of-bounds stencil placement is indeed a
complete no-op (session unchanged, no turn, no undo entry); in Foldline,
however, `handleFold` never validates the fold index: any fold submitted in
the playing state with moves remaining — legal or not — decrements
`movesLeft` and pushes an undo entry. -/
theorem C5_amended :
    (∀ (σ : InkSession) (r c : Fin 7) (sel : ℕ),
      σ.state.selectedStencil = some sel →
      canPlace σ.state.grid (σ.state.stencilsOffered.getD sel 0) r.val c.val = false →
      handleCellClick σ r c = σ) ∧
    (∀ (σ : FoldSession) (isH : Bool) (k : ℕ),
      σ.state.screen = Screen.playing → 0 < σ.state.movesLeft →
      (handleFold σ isH k).state.movesLeft = σ.state.movesLeft - 1 ∧
      (handleFold σ isH k).undo = σ.undo ++ [σ.state]) := by
  constructor
  · intro σ r c sel hsel hcan
    unfold handleCellClick
    by_cases hscreen : σ.state.screen = Screen.playing
    · simp only [hscreen, hsel, hcan, if_true, Bool.false_eq_true, if_false]
    · simp only [if_neg hscreen]
  · intro σ isH k hscreen hmoves
    unfold handleFold
    rw [if_pos ⟨hscreen, hmoves⟩]
    exact ⟨rfl, rfl⟩

/-- C5 witness: the InkPressure no-op at a concrete out-of-bounds placement
(H-Line stencil anchored at column 6) and the Foldline move consumption at a
concrete fold. -/
theorem C5_witness :
    handleCellClick
      { state :=
          { screen := Screen.playing, grid := fun _ => 0, spill := 0,
            spillLimit := 25, turn := 0, score := 0, stencilsOffered := [3, 0, 0],
            selectedStencil := some 0, mode := true, seed := "w2", bestBurst := 0 },
        undo := [], h := 1 } 0 6 =
      { state :=
          { screen := Screen.playing, grid := fun _ => 0, spill := 0,
            spillLimit := 25, turn := 0, score := 0, stencilsOffered := [3, 0, 0],
            selectedStencil := some 0, mode := true, seed := "w2", bestBurst := 0 },
        undo := [], h := 1 } ∧
    (handleFold foldSession0 false 3).state.movesLeft = foldSession0.state.movesLeft - 1 ∧
    (handleFold foldSession0 false 3).undo = foldSession0.undo ++ [foldSession0.state] :=
  ⟨C5_amended.1 _ 0 6 0 rfl (by decide),
   (C5_amended.2 foldSession0 false 3 rfl (by decide)).1,
   (C5_amended.2 foldSession0 false 3 rfl (by decide)).2⟩

/-! ## Braidstack session: `handleDropInternal`

The RNG closure state `h` (the source's module-level `randRef`) is carried as
a field next to the component state. -/

/-- Braidstack `GameState` plus the RNG closure state `h`. -/
structure BraidState where
  screen : Screen
  grid : List BraidRow
  incoming : BraidRow
  swapsLeft : ℕ
  score : ℕ
  turn : ℕ
  bestChain : ℕ
  mode : Bool
  seed : String
  autoDropTimer : ℕ
  h : ℕ

/-- Braidstack overflow test: the bottom row (`grid[11]`) has an occupied
cell. -/
def braidOverflow (g : List BraidRow) : Bool :=
  !decide (g.getD 11 ((0, 0, 0) : BraidRow) = ((0, 0, 0) : BraidRow))

/-- Braidstack `generateIncoming`: three draws of `floor(rand() * 4) + 1`;
returns the new incoming row and the advanced RNG state. -/
def generateIncoming (h : ℕ) : BraidRow × ℕ :=
  let h1 := mix h
  let h2 := mix h1
  let h3 := mix h2
  ((h1 * 4 / 4294967296 + 1, h2 * 4 / 4294967296 + 1, h3 * 4 / 4294967296 + 1), h3)

/-- Braidstack `handleDropInternal`: on overflow the session ends; otherwise
shift the grid down one row (for the 12-row grid the `for` loop equals
prepending the incoming row and dropping the last), resolve clears, score
`clearedRows * 10` plus the chain bonus, redraw the incoming row. -/
def handleDropInternal (s : BraidState) : BraidState :=
  if braidOverflow s.grid then { s with screen := Screen.gameover }
  else
    let res := braidResolveClears (s.incoming :: s.grid.dropLast)
    let addedScore := res.2.1 * 10 + (if 1 < res.2.2 then (res.2.2 - 1) * 15 else 0)
    let gi := generateIncoming s.h
    { s with
      grid := res.1, incoming := gi.1, swapsLeft := 2,
      score := s.score + addedScore, turn := s.turn + 1,
      bestChain := max s.bestChain res.2.2, autoDropTimer := 3000, h := gi.2 }

/-- The empty 12×3 Braidstack grid (`createEmptyGrid`). -/
def emptyBraidGrid : List BraidRow := List.replicate 12 ((0, 0, 0) : BraidRow)

/-- The C9 scenario: playing session on the empty grid with incoming
`[1, 2, 3]`, any RNG state. -/
def braidScenario (h : ℕ) : BraidState :=
  { screen := Screen.playing, grid := emptyBraidGrid, incoming := (1, 2, 3),
    swapsLeft := 2, score := 0, turn := 0, bestChain := 0, mode := true,
    seed := "d", autoDropTimer := 3000, h := h }

/-- C9: dropping `[1, 2, 3]` with no swaps onto the empty grid cascades in
exactly one wave, clears exactly that one row (the board returns to empty),
and adds exactly 10 points (base clear only, no multi-wave bonus). -/
theorem C9_braidstack_scenario (h : ℕ) :
    braidResolveClears ((1, 2, 3) :: emptyBraidGrid.dropLast) = (emptyBraidGrid, 1, 1) ∧
    (handleDropInternal (braidScenario h)).score = 10 ∧
    (handleDropInternal (braidScenario h)).turn = 1 ∧
    (handleDropInternal (braidScenario h)).bestChain = 1 ∧
    (handleDropInternal (braidScenario h)).grid = emptyBraidGrid := by
  have hres : braidResolveClears ((1, 2, 3) :: emptyBraidGrid.dropLast) =
      (emptyBraidGrid, 1, 1) := by decide
  have hover : braidOverflow emptyBraidGrid = false := by decide
  refine ⟨hres, ?_, ?_, ?_, ?_⟩ <;>
    simp [handleDropInternal, hover, hres, braidScenario]

/-! ## RibbonFlip and Flipbook sessions (move handlers and scoring) -/

/-- In-place reversal of the inclusive segment `[start, stop]`
(`segment = slice(start, stop + 1).reverse()` written back). -/
def reverseSegment (l : List ℕ) (start stop : ℕ) : List ℕ :=
  l.take start ++ ((l.drop start).take (stop + 1 - start)).reverse ++ l.drop (stop + 1)

/-- RibbonFlip `GameState`.  `mode` is `true` for daily. -/
structure RibbonState where
  screen : Screen
  ribbon : List ℕ
  turn : ℕ
  score : ℕ
  maxLen : ℕ
  mode : Bool
  seed : String
  bestCascade : ℕ
  selectionStart : Option ℕ

/-- A RibbonFlip session: component state, undo stack, RNG closure state. -/
structure RibbonSession where
  state : RibbonState
  undo : List RibbonState
  h : ℕ

/-- RibbonFlip `handleBeadClick`: first click selects, clicking the selected
bead cancels, a second distinct click appends a fresh bead, reverses the
inclusive segment between the two clicks, resolves clears and scores
`removed` plus the cascade bonus. -/
def handleBeadClick (σ : RibbonSession) (index : ℕ) : RibbonSession :=
  if σ.state.screen = Screen.playing then
    match σ.state.selectionStart with
    | none => { σ with state := { σ.state with selectionStart := some index } }
    | some s0 =>
      if s0 = index then { σ with state := { σ.state with selectionStart := none } }
      else
        let h1 := mix σ.h
        let newBead := h1 * 4 / 4294967296
        let newRibbon := reverseSegment (σ.state.ribbon ++ [newBead])
          (min s0 index) (max s0 index)
        let res := ribbonResolveClears newRibbon
        let addedScore := res.2.1 + (if 1 < res.2.2 then (res.2.2 - 1) * 5 else 0)
        let isOver := 20 ≤ res.1.length
        { state :=
            { σ.state with
              ribbon := res.1, turn := σ.state.turn + 1,
              score := σ.state.score + addedScore,
              bestCascade := max σ.state.bestCascade res.2.2,
              selectionStart := none,
              screen := if isOver then Screen.gameover else Screen.playing },
          undo := σ.undo ++ [σ.state], h := h1 }
  else σ

/-- Reversal of the suffix starting at index `k` (Flipbook's cut-and-flip). -/
def reverseSuffix (l : List ℕ) (k : ℕ) : List ℕ :=
  l.take k ++ (l.drop k).reverse

/-- Flipbook `GameState`.  `mode` is `true` for daily. -/
structure FlipState where
  screen : Screen
  line : List ℕ
  turn : ℕ
  score : ℕ
  maxLen : ℕ
  mode : Bool
  seed : String
  bestClear : ℕ
  selectedIndex : Option ℕ

/-- A Flipbook session: component state, undo stack, RNG closure state. -/
structure FlipSession where
  state : FlipState
  undo : List FlipState
  h : ℕ

/-- Flipbook `handleTileClick`: first click selects the cut point, clicking
it again cancels, a second distinct click appends a fresh symbol, reverses
the suffix from the cut point, reduces the line and scores `removed` plus
the big-clear bonus. -/
def handleTileClick (σ : FlipSession) (index : ℕ) : FlipSession :=
  if σ.state.screen = Screen.playing then
    match σ.state.selectedIndex with
    | none => { σ with state := { σ.state with selectedIndex := some index } }
    | some k =>
      if k = index then { σ with state := { σ.state with selectedIndex := none } }
      else
        let h1 := mix σ.h
        let newSymbol := h1 * 3 / 4294967296
        let newLine := reverseSuffix (σ.state.line ++ [newSymbol]) k
        let reduced := reduceLine newLine
        let removed := newLine.length - reduced.length
        let addedScore := removed + (if 6 ≤ removed then (removed - 5) * 2 else 0)
        let isOver := 24 ≤ reduced.length
        { state :=
            { σ.state with
              line := reduced, turn := σ.state.turn + 1,
              score := σ.state.score + addedScore,
              bestClear := max σ.state.bestClear removed,
              selectedIndex := none,
              screen := if isOver then Screen.gameover else Screen.playing },
          undo := σ.undo ++ [σ.state], h := h1 }
  else σ

/-! ## Scoring formulas (claim C2)

Observable score-delta components of the four move handlers. -/

/-- Result (grid, clearedRows, chainWaves) of resolving a Braidstack drop. -/
def braidWaveInfo (s : BraidState) : List BraidRow × ℕ × ℕ :=
  braidResolveClears (s.incoming :: s.grid.dropLast)

/-- Result (ribbon, removed, waves) of resolving a RibbonFlip move. -/
def ribbonMoveResult (σ : RibbonSession) (s0 i : ℕ) : List ℕ × ℕ × ℕ :=
  ribbonResolveClears (reverseSegment (σ.state.ribbon ++ [mix σ.h * 4 / 4294967296])
    (min s0 i) (max s0 i))

/-- Bursts fired by an InkPressure move. -/
def inkMoveBursts (σ : InkSession) (sel : ℕ) (r c : Fin 7) : ℕ :=
  (resolveBursts (applyStamp σ.state.grid (σ.state.stencilsOffered.getD sel 0)
    r.val c.val)).2.1

/-- Symbols removed by a Flipbook move. -/
def flipMoveRemoved (σ : FlipSession) (k : ℕ) : ℕ :=
  (reverseSuffix (σ.state.line ++ [mix σ.h * 3 / 4294967296]) k).length -
    (reduceLine (reverseSuffix (σ.state.line ++ [mix σ.h * 3 / 4294967296]) k)).length

/-- A Flipbook position whose next move removes 6 symbols in the single
reduction pass (`[b, 0, 0, 1, 1, 2, 2]` reduces to `[b]` for every drawn
`b`). -/
def flipCtr1 : FlipSession :=
  { state :=
      { screen := Screen.playing, line := [2, 2, 1, 1, 0, 0], turn := 0,
        score := 0, maxLen := 24, mode := true, seed := "c", bestClear := 0,
        selectedIndex := some 0 },
    undo := [], h := 7 }

/-- A Flipbook position whose next move removes 2 symbols in the single
reduction pass. -/
def flipCtr2 : FlipSession :=
  { state :=
      { screen := Screen.playing, line := [0, 0], turn := 0,
        score := 0, maxLen := 24, mode := true, seed := "c", bestClear := 0,
        selectedIndex := some 0 },
    undo := [], h := 7 }

/-- C2 counterexample: Flipbook's bonus is not a multi-wave bonus.  Flipbook
reduction completes in a single pass (third conjunct: re-reducing the
already-reduced move result changes nothing, so every move has exactly one
wave), yet the 6-removal single-wave move scores 8 while the 2-removal
single-wave move scores 2: no per-unit base value makes a wave-bonus-free
score both `8 = 6 * v` and `2 = 2 * v`, since `8 ≠ 3 * 2`. -/
theorem C2_counterexample :
    (handleTileClick flipCtr1 1).state.score = 8 ∧
    (handleTileClick flipCtr2 1).state.score = 2 ∧
    reduceLine (reduceLine (reverseSuffix ([2, 2, 1, 1, 0, 0] ++
        [mix 7 * 3 / 4294967296]) 0)) =
      reduceLine (reverseSuffix ([2, 2, 1, 1, 0, 0] ++ [mix 7 * 3 / 4294967296]) 0) ∧
    (8 : ℕ) ≠ 3 * 2 := by
  refine ⟨?_, ?_, ?_, ?_⟩ <;> decide

/-- C2 amended: Braidstack and RibbonFlip score as claimed — base per-unit
value (10 per cleared row, 1 per removed bead) plus a multi-wave bonus of
`(waves - 1) * 15` resp. `(waves - 1) * 5` added once, only when
`waves > 1`.  InkPressure and Flipbook, however, use size-based bonuses
independent of any wave count: InkPressure adds `bursts * 2` plus
`(bursts - 4) * 3` when `bursts ≥ 5`; Flipbook adds `removed` plus
`(removed - 5) * 2` when `removed ≥ 6`. -/
theorem C2_amended :
    (∀ s : BraidState, braidOverflow s.grid = false →
      (handleDropInternal s).score = s.score +
        ((braidWaveInfo s).2.1 * 10 +
          (if 1 < (braidWaveInfo s).2.2 then ((braidWaveInfo s).2.2 - 1) * 15 else 0))) ∧
    (∀ (σ : RibbonSession) (s0 i : ℕ), σ.state.screen = Screen.playing →
      σ.state.selectionStart = some s0 → ¬s0 = i →
      (handleBeadClick σ i).state.score = σ.state.score +
        ((ribbonMoveResult σ s0 i).2.1 +
          (if 1 < (ribbonMoveResult σ s0 i).2.2 then
            ((ribbonMoveResult σ s0 i).2.2 - 1) * 5 else 0))) ∧
    (∀ (σ : InkSession) (r c : Fin 7) (sel : ℕ), σ.state.screen = Screen.playing →
      σ.state.selectedStencil = some sel →
      canPlace σ.state.grid (σ.state.stencilsOffered.getD sel 0) r.val c.val = true →
      (handleCellClick σ r c).state.score = σ.state.score +
        (inkMoveBursts σ sel r c * 2 +
          (if 5 ≤ inkMoveBursts σ sel r c then (inkMoveBursts σ sel r c - 4) * 3 else 0))) ∧
    (∀ (σ : FlipSession) (k i : ℕ), σ.state.screen = Screen.playing →
      σ.state.selectedIndex = some k → ¬k = i →
      (handleTileClick σ i).state.score = σ.state.score +
        (flipMoveRemoved σ k +
          (if 6 ≤ flipMoveRemoved σ k then (flipMoveRemoved σ k - 5) * 2 else 0))) := by
  refine ⟨?_, ?_, ?_, ?_⟩
  · intro s hover
    unfold handleDropInternal braidWaveInfo
    simp only [hover, Bool.false_eq_true, if_false]
  · intro σ s0 i hscreen hsel hne
    unfold handleBeadClick ribbonMoveResult
    simp only [hscreen, hsel, if_true, if_neg hne]
  · intro σ r c sel hscreen hsel hcan
    unfold handleCellClick inkMoveBursts
    simp only [hscreen, hsel, hcan, if_true]
  · intro σ k i hscreen hsel hne
    unfold handleTileClick flipMoveRemoved reverseSuffix
    simp only [hscreen, hsel, if_true, if_neg hne]

/-- C2 witness: the Braidstack wave formula at the C9 scenario state and the
Flipbook size formula at the 6-removal position. -/
theorem C2_witness :
    braidOverflow (braidScenario 5).grid = false ∧
    (handleDropInternal (braidScenario 5)).score = (braidScenario 5).score +
      ((braidWaveInfo (braidScenario 5)).2.1 * 10 +
        (if 1 < (braidWaveInfo (braidScenario 5)).2.2 then
          ((braidWaveInfo (braidScenario 5)).2.2 - 1) * 15 else 0)) ∧
    (handleTileClick flipCtr1 1).state.score = flipCtr1.state.score +
      (flipMoveRemoved flipCtr1 0 +
        (if 6 ≤ flipMoveRemoved flipCtr1 0 then (flipMoveRemoved flipCtr1 0 - 5) * 2 else 0)) :=
  ⟨by decide, C2_amended.1 _ (by decide),
   C2_amended.2.2.2 flipCtr1 0 1 rfl rfl (by decide)⟩

/-! ## AnchorDrift: simultaneous token movement and collision resolution

Tokens live on the 7×7 grid (integer coordinates; all reachable positions
stay on-grid).  On an anchor click every token proposes a step toward the
anchor (larger-distance axis first, horizontal on ties), a proposal into a
junk block becomes a stay, proposals are grouped by destination, groups of
two or more lose all their tokens (same types annihilate for points, mixed
types leave a permanent junk block), and a fresh token spawns on a free
perimeter cell. -/

/-- An AnchorDrift cell coordinate. -/
abbrev APos : Type := ℤ × ℤ

/-- An AnchorDrift token. -/
structure AToken where
  id : ℕ
  type : ℕ
  pos : APos
deriving DecidableEq

/-- AnchorDrift `computeMove`: one step toward the anchor, preferring the
axis with the larger absolute distance; ties (and the horizontal-or-equal
case) move horizontally. -/
def computeMove (t a : APos) : APos :=
  let dr := a.1 - t.1
  let dc := a.2 - t.2
  if dr = 0 ∧ dc = 0 then t
  else if |dc| < |dr| then (t.1 + dr.sign, t.2)
  else (t.1, t.2 + dc.sign)

/-- Destination of one token: the proposed step, or a stay when the step
lands on a junk block. -/
def destOf (junk : Finset APos) (anchor : APos) (t : AToken) : APos :=
  let m := computeMove t.pos anchor
  if m ∈ junk then t.pos else m

/-- All tokens moved to their destinations (the proposal phase). -/
def movedTokens (junk : Finset APos) (anchor : APos) (tokens : List AToken) :
    List AToken :=
  tokens.map (fun t => { t with pos := destOf junk anchor t })

/-- The proposal group at one destination cell. -/
def groupAt (moved : List AToken) (p : APos) : List AToken :=
  moved.filter (fun u => decide (u.pos = p))

/-- AnchorDrift's `every(t => t.type === tokensAtCell[0].type)` test. -/
def allSameType : List AToken → Bool
  | [] => true
  | t :: rest => rest.all (fun u => decide (u.type = t.type))

/-- Tokens that survive collision resolution: exactly the proposals whose
destination cell was proposed once. -/
def survivors (moved : List AToken) : List AToken :=
  moved.filter (fun t => decide ((groupAt moved t.pos).length = 1))

/-- The perimeter cells in the source's push order (`getPerimeterCells`). -/
def perimeterCells : List APos :=
  (List.range 7).flatMap (fun c => [((0 : ℤ), (c : ℤ)), ((6 : ℤ), (c : ℤ))]) ++
    (List.range 5).flatMap (fun r => [(((r : ℤ) + 1), (0 : ℤ)), (((r : ℤ) + 1), (6 : ℤ))])

/-- AnchorDrift `findEmptyPerimeterCell`: filter the perimeter down to cells
neither occupied nor junk; `null` when none remain (no RNG draw), otherwise
draw `floor(rand() * |empty|)` and return the cell with the advanced RNG
state. -/
def findEmptyPerimeterCell (tokens : List AToken) (junk : Finset APos) (h : ℕ) :
    Option (APos × ℕ) :=
  let occupied := tokens.map AToken.pos
  let empty := perimeterCells.filter
    (fun p => !decide (p ∈ occupied) && !decide (p ∈ junk))
  if empty.length = 0 then none
  else some (empty.getD (mix h * empty.length / 4294967296) (0, 0), mix h)

/-- AnchorDrift `GameState` (the junk-block `Set` keyed by cell). -/
structure AnchorState where
  screen : Screen
  tokens : List AToken
  junk : Finset APos
  turn : ℕ
  score : ℕ
  mode : Bool
  seed : String

/-- An AnchorDrift session: component state, undo stack, RNG closure state
and the token id counter (`tokenIdRef`). -/
structure AnchorSession where
  state : AnchorState
  undo : List AnchorState
  h : ℕ
  nextId : ℕ

/-- AnchorDrift `handleCellClick`: snapshot for undo, propose and group the
moves, annihilate same-type groups (5 points per token), turn mixed groups
into junk blocks (1 point), end the game at 15 junk blocks or when no spawn
cell remains, otherwise spawn one fresh token on a free perimeter cell. -/
def anchorClick (σ : AnchorSession) (anchor : APos) : AnchorSession :=
  if σ.state.screen = Screen.playing then
    let moved := movedTokens σ.state.junk anchor σ.state.tokens
    let surv := survivors moved
    let collide := (moved.map AToken.pos).toFinset.filter
      (fun p => 2 ≤ (groupAt moved p).length)
    let mixedCells := collide.filter (fun p => allSameType (groupAt moved p) = false)
    let sameCells := collide.filter (fun p => allSameType (groupAt moved p) = true)
    let newJunk := σ.state.junk ∪ mixedCells
    let newScore := σ.state.score +
      (∑ p ∈ sameCells, 5 * (groupAt moved p).length) + mixedCells.card
    if 15 ≤ newJunk.card then
      { state :=
          { σ.state with
            tokens := surv, junk := newJunk,
            turn := σ.state.turn + 1, score := newScore,
            screen := Screen.gameover },
        undo := σ.undo ++ [σ.state], h := σ.h, nextId := σ.nextId }
    else
      match findEmptyPerimeterCell surv newJunk σ.h with
      | none =>
        { state :=
            { σ.state with
              tokens := surv, junk := newJunk,
              turn := σ.state.turn + 1, score := newScore,
              screen := Screen.gameover },
          undo := σ.undo ++ [σ.state], h := σ.h, nextId := σ.nextId }
      | some ph =>
        let h2 := mix ph.2
        { state :=
            { σ.state with
              tokens := surv ++ [⟨σ.nextId, h2 * 3 / 4294967296, ph.1⟩],
              junk := newJunk, turn := σ.state.turn + 1, score := newScore,
              screen := Screen.playing },
          undo := σ.undo ++ [σ.state], h := h2, nextId := σ.nextId + 1 }
  else σ

/-- The C10 invariant: surviving tokens occupy pairwise distinct cells and
no token sits on a junk block. -/
def AnchorInv (σ : AnchorSession) : Prop :=
  σ.state.tokens.Pairwise (fun a b => a.pos ≠ b.pos) ∧
    ∀ t ∈ σ.state.tokens, t.pos ∉ σ.state.junk

theorem survivors_pairwise (moved : List AToken) :
    (survivors moved).Pairwise (fun a b => a.pos ≠ b.pos) := by
  rw [List.pairwise_iff_forall_sublist]
  intro a b hsub hpos
  have hmem_a : a ∈ survivors moved :=
    List.Sublist.mem (List.mem_cons_self _ _) hsub
  have ha : (groupAt moved a.pos).length = 1 := by
    unfold survivors at hmem_a
    have hf := List.of_mem_filter hmem_a
    simp only [decide_eq_true_eq] at hf
    exact hf
  have hsub2 : List.Sublist [a, b] moved := hsub.trans (List.filter_sublist _)
  have hcount := List.Sublist.countP_le (fun u => decide (u.pos = a.pos)) hsub2
  have h2 : List.countP (fun u => decide (u.pos = a.pos)) [a, b] = 2 := by
    have hb : b.pos = a.pos := hpos.symm
    simp [List.countP_cons, hb]
  have hC : List.countP (fun u => decide (u.pos = a.pos)) moved =
      (groupAt moved a.pos).length :=
    List.countP_eq_length_filter _ _
  omega

theorem moved_not_junk {junk : Finset APos} {anchor : APos} {tokens : List AToken}
    (hinv : ∀ t ∈ tokens, t.pos ∉ junk) :
    ∀ t ∈ movedTokens junk anchor tokens, t.pos ∉ junk := by
  intro t ht
  unfold movedTokens at ht
  rcases List.mem_map.1 ht with ⟨t0, ht0, rfl⟩
  show destOf junk anchor t0 ∉ junk
  unfold destOf
  by_cases hm : computeMove t0.pos anchor ∈ junk
  · rw [if_pos hm]
    exact hinv t0 ht0
  · rw [if_neg hm]
    exact hm

theorem survivor_group_one {moved : List AToken} {t : AToken}
    (ht : t ∈ survivors moved) : (groupAt moved t.pos).length = 1 := by
  unfold survivors at ht
  have hf := List.of_mem_filter ht
  simp only [decide_eq_true_eq] at hf
  exact hf

theorem findEmpty_some {tokens : List AToken} {junk : Finset APos} {h : ℕ}
    {ph : APos × ℕ} (heq : findEmptyPerimeterCell tokens junk h = some ph) :
    ph.1 ∉ junk ∧ ∀ t ∈ tokens, t.pos ≠ ph.1 := by
  unfold findEmptyPerimeterCell at heq
  set empty := perimeterCells.filter
    (fun p => !decide (p ∈ tokens.map AToken.pos) && !decide (p ∈ junk)) with hempty
  by_cases hlen : empty.length = 0
  · rw [if_pos hlen] at heq
    cases heq
  · rw [if_neg hlen] at heq
    have hpair : (empty.getD (mix h * empty.length / 4294967296) (0, 0), mix h) = ph :=
      Option.some.inj heq
    have hph : ph.1 = empty.getD (mix h * empty.length / 4294967296) (0, 0) := by
      rw [← hpair]
    have hidx : mix h * empty.length / 4294967296 < empty.length := by
      rw [Nat.div_lt_iff_lt_mul (by norm_num : (0 : ℕ) < 4294967296)]
      have hmix := mix_lt h
      have hpos : 0 < empty.length := Nat.pos_of_ne_zero hlen
      calc mix h * empty.length < 4294967296 * empty.length :=
            (Nat.mul_lt_mul_right hpos).2 hmix
        _ = empty.length * 4294967296 := Nat.mul_comm _ _
    have hmem : ph.1 ∈ empty := by
      rw [hph, List.getD_eq_getElem _ _ hidx]
      exact List.getElem_mem hidx
    have hpred := List.of_mem_filter hmem
    simp only [Bool.and_eq_true, Bool.not_eq_true', decide_eq_false_iff_not] at hpred
    refine ⟨hpred.2, fun t ht hcontra => hpred.1 (List.mem_map.2 ⟨t, ht, hcontra⟩)⟩

theorem survivors_not_newJunk (σ : AnchorSession) (anchor : APos)
    (hinv : ∀ t ∈ σ.state.tokens, t.pos ∉ σ.state.junk) :
    ∀ t ∈ survivors (movedTokens σ.state.junk anchor σ.state.tokens),
      t.pos ∉ σ.state.junk ∪
        (((movedTokens σ.state.junk anchor σ.state.tokens).map AToken.pos).toFinset.filter
            (fun p => 2 ≤ (groupAt (movedTokens σ.state.junk anchor σ.state.tokens) p).length)).filter
          (fun p => allSameType (groupAt (movedTokens σ.state.junk anchor σ.state.tokens) p) = false) := by
  intro t ht hunion
  rcases Finset.mem_union.1 hunion with hold | hmixed
  · exact moved_not_junk hinv t (List.Sublist.mem ht (List.filter_sublist _)) hold
  · have h2 := (Finset.mem_filter.1 (Finset.mem_filter.1 hmixed).1).2
    have h1 := survivor_group_one ht
    omega

/-- C10: every committed AnchorDrift anchor move preserves the invariant
that the surviving tokens occupy pairwise distinct cells and that no token
sits on a junk block: every cell proposed by two or more tokens loses all of
them (annihilation or a fresh junk block), a token aimed at a junk block
stays in place, and the fresh spawn goes to an empty non-junk perimeter
cell. -/
theorem C10_anchor_invariant (σ : AnchorSession) (anchor : APos)
    (hinv : AnchorInv σ) : AnchorInv (anchorClick σ anchor) := by
  by_cases hscreen : σ.state.screen = Screen.playing
  · unfold anchorClick
    rw [if_pos hscreen]
    have hpw := survivors_pairwise (movedTokens σ.state.junk anchor σ.state.tokens)
    have hnj := survivors_not_newJunk σ anchor hinv.2
    dsimp only
    split
    · exact ⟨hpw, hnj⟩
    · split
      · exact ⟨hpw, hnj⟩
      · rename_i ph heq
        have hf := findEmpty_some heq
        constructor
        · rw [List.pairwise_append]
          refine ⟨hpw, List.pairwise_singleton _ _, ?_⟩
          intro a ha b hb
          rw [List.mem_singleton.1 hb]
          exact fun hcontra => hf.2 a ha hcontra
        · intro t ht
          rcases List.mem_append.1 ht with hsurv | hnew
          · exact hnj t hsurv
          · rw [List.mem_singleton.1 hnew]
            exact hf.1
  · unfold anchorClick
    rw [if_neg hscreen]
    exact hinv

/-- A concrete AnchorDrift position satisfying the invariant: one token at
the top-left corner, no junk. -/
def anchorSession0 : AnchorSession :=
  { state :=
      { screen := Screen.playing, tokens := [⟨0, 1, ((0 : ℤ), (0 : ℤ))⟩],
        junk := ∅, turn := 0, score := 0, mode := true, seed := "a" },
    undo := [], h := 2, nextId := 1 }

/-- C10 witness: the invariant holds at the concrete position and is
preserved by an anchor click at the center. -/
theorem C10_witness :
    AnchorInv anchorSession0 ∧
      AnchorInv (anchorClick anchorSession0 ((3 : ℤ), (3 : ℤ))) :=
  ⟨⟨by decide, by decide⟩,
   C10_anchor_invariant anchorSession0 ((3 : ℤ), (3 : ℤ)) ⟨by decide, by decide⟩⟩

end Porto
